import Mathlib

/-!
# Verification of the rblx-finder crawl-cycle engine

Shallow embedding of the core of the `rblx-finder` repository:
the dedup-aware upsert operation over the SQLite `games` table (`db.ts`),
the per-letter pagination walker and crawl-cycle orchestration
(`continuous-search.ts`, `populate.ts`), the retrying fetch client
(`rotrends.ts`), and the continuous-search scheduler state machine
(`continuous-search.ts`).

Timestamps (`CURRENT_TIMESTAMP`) are modelled as a `Nat` parameter `now`.
SQLite rows are modelled in insertion (rowid) order; `db.get` without an
`ORDER BY` returns the first matching row in that order.
-/

/-- A catalog entry produced by the fetch client (`Game` in `types.ts`,
without the advisory `ccu` field, which the upsert never persists). -/
structure Game where
  source_id : String
  title : String
  url : String
deriving Repr, DecidableEq

/-- One row of the `games` table (`initSchema` in `db.ts`):
`id INTEGER PRIMARY KEY AUTOINCREMENT`, `source_id TEXT UNIQUE NOT NULL`,
`title`, `url`, `created_at`, `updated_at`. -/
structure GameRow where
  id : Nat
  source_id : String
  title : String
  url : String
  created_at : Nat
  updated_at : Nat
deriving Repr, DecidableEq

/-- The `games` table: rows in rowid order plus the AUTOINCREMENT cursor. -/
structure GamesTable where
  rows : List GameRow
  nextId : Nat
deriving Repr, DecidableEq

/-- `SELECT id, source_id FROM games WHERE title = ? AND url = ?`
(first matching row, in rowid order) — `db.ts`, `upsertGameWithStatus`. -/
def findTitleUrl (t : GamesTable) (title url : String) : Option GameRow :=
  t.rows.find? fun r => r.title == title && r.url == url

/-- `SELECT id FROM games WHERE source_id = ?` — `db.ts`, `upsertGameWithStatus`. -/
def findBySourceId (t : GamesTable) (sid : String) : Option GameRow :=
  t.rows.find? fun r => r.source_id == sid

/-- The `UNIQUE` constraint on `games.source_id` declared in `initSchema`:
an `UPDATE` setting row `rowId`'s `source_id` to `sid` fails with
`SQLITE_CONSTRAINT` exactly when a *different* row already holds `sid`. -/
def sourceIdConflict (t : GamesTable) (rowId : Nat) (sid : String) : Bool :=
  t.rows.any fun r => r.id != rowId && r.source_id == sid

/-- `upsertGameWithStatus` (`db.ts`): (1) look up by exact `(title, url)`;
if found, `UPDATE games SET source_id = ?, updated_at = CURRENT_TIMESTAMP
WHERE id = ?` (subject to the `UNIQUE(source_id)` constraint) and report
`isNew = false`; (2) otherwise look up by `source_id`; if found,
`UPDATE games SET title = ?, url = ?, updated_at = CURRENT_TIMESTAMP
WHERE source_id = ?` and report `isNew = false`; (3) otherwise
`INSERT INTO games (source_id, title, url) VALUES (?, ?, ?)` and report
`isNew = true`.  A rejected promise is an `Except.error`. -/
def upsertGameWithStatus (now : Nat) (g : Game) (t : GamesTable) :
    Except String (GamesTable × Bool) :=
  match findTitleUrl t g.title g.url with
  | some dup =>
    if sourceIdConflict t dup.id g.source_id then
      Except.error "UNIQUE constraint failed: games.source_id"
    else
      Except.ok ({ t with rows := t.rows.map fun r =>
        if r.id == dup.id then
          { r with source_id := g.source_id, updated_at := now }
        else r }, false)
  | none =>
    match findBySourceId t g.source_id with
    | some _ =>
      Except.ok ({ t with rows := t.rows.map fun r =>
        if r.source_id == g.source_id then
          { r with title := g.title, url := g.url, updated_at := now }
        else r }, false)
    | none =>
      let inserted : GameRow := ⟨t.nextId, g.source_id, g.title, g.url, now, now⟩
      Except.ok ({ rows := t.rows ++ [inserted], nextId := t.nextId + 1 }, true)

/-- A stored row matches an incoming entry when either dedup rule applies:
same `(title, url)` pair or same `source_id`. -/
def matchesGame (g : Game) (r : GameRow) : Bool :=
  (r.title == g.title && r.url == g.url) || r.source_id == g.source_id

/-- The per-letter pagination loop of `performContinuousSearch`
(`continuous-search.ts`, the `for (;;)` loop) and `populateByLetters`
(`populate.ts`): starting at page 1 with an empty-page streak of 0, fetch
each page in turn; an empty batch increments the streak and stops the walk
once the streak reaches `maxEmptyPages = 3`, a non-empty batch resets the
streak to 0.  `results` is the per-page batch size the fetch client
reports, in page order; the returned list is the sequence of page numbers
actually fetched. -/
def walkFrom : List Nat → Nat → Nat → List Nat
  | [], _, _ => []
  | c :: rest, pageNo, streak =>
    if c = 0 then
      if streak + 1 ≥ 3 then [pageNo]
      else pageNo :: walkFrom rest (pageNo + 1) (streak + 1)
    else pageNo :: walkFrom rest (pageNo + 1) 0

/-- The walk over one index key starts at page 1 with streak 0. -/
def walk (results : List Nat) : List Nat := walkFrom results 1 0

/-- The page fetched `k`-th (1-indexed) was the third consecutive empty
page: the first `k` per-page results end in `[0, 0, 0]`. -/
def endsInTripleEmpty (results : List Nat) (k : Nat) : Prop :=
  ∃ t, results.take k = t ++ [0, 0, 0]

/-- The per-letter pagination loop of `parseNewGames` (`populate.ts`),
including its defensive `processedPages` set: before fetching, a page
number already in the set is skipped (`page++; continue`); otherwise the
page is added to the set and fetched, with the same empty-streak
termination rule as the plain walk.  `results` maps a page number to the
batch size fetched for it; `fuel` bounds the number of loop iterations
(each iteration strictly increases `page`, so any finite prefix of the real
run is captured by a large enough fuel).  Returns the page numbers
processed, in order. -/
def parsePagesLoop (results : Nat → Nat) : Nat → Nat → Nat → List Nat → List Nat
  | 0, _, _, _ => []
  | fuel + 1, page, streak, processed =>
    if processed.contains page then
      parsePagesLoop results fuel (page + 1) streak processed
    else if results page = 0 then
      if streak + 1 ≥ 3 then [page]
      else page :: parsePagesLoop results fuel (page + 1) (streak + 1) (page :: processed)
    else page :: parsePagesLoop results fuel (page + 1) 0 (page :: processed)

/-- What one fetch attempt does, as observed by the retry loop of
`fetchGamesByLetter` / `fetchGamesByLetterPage` (`rotrends.ts`): the render
step either throws, or the attempt extracts a (possibly empty) list of
games. -/
inductive AttemptOutcome where
  | throws : String → AttemptOutcome
  | yields : List Game → AttemptOutcome
deriving Repr, DecidableEq

/-- The retry loop of `fetchGamesByLetter` / `fetchGamesByLetterPage`
(`rotrends.ts`): `while (retryCount < maxRetries)` with `maxRetries = 3`.
A thrown render error retries (after closing the context) while
`retryCount < maxRetries - 1` and otherwise rethrows; an empty extraction
retries under the same bound and otherwise is returned as zero entries; a
non-empty extraction returns immediately.  `att n` is the outcome of the
attempt with `retryCount = n`; the second component counts attempts made.
`fuel` bounds loop iterations (3 suffices from the initial state). -/
def fetchLoop (att : Nat → AttemptOutcome) : Nat → Nat → Except String (List Game) × Nat
  | 0, _ => (Except.error "Failed to parse letter after 3 attempts", 0)
  | fuel + 1, retryCount =>
    if retryCount < 3 then
      match att retryCount with
      | AttemptOutcome.throws e =>
        if retryCount < 2 then
          let r := fetchLoop att fuel (retryCount + 1)
          (r.1, r.2 + 1)
        else (Except.error e, 1)
      | AttemptOutcome.yields gs =>
        if gs.length = 0 ∧ retryCount < 2 then
          let r := fetchLoop att fuel (retryCount + 1)
          (r.1, r.2 + 1)
        else (Except.ok gs, 1)
    else (Except.error "Failed to parse letter after 3 attempts", 0)

/-- A whole fetch call starts with `retryCount = 0`. -/
def fetchGamesByLetterM (att : Nat → AttemptOutcome) : Except String (List Game) × Nat :=
  fetchLoop att 3 0

/-- An attempt outcome that makes the loop retry when attempts remain:
a thrown render error or an empty extraction. -/
def triggersRetry : AttemptOutcome → Bool
  | AttemptOutcome.throws _ => true
  | AttemptOutcome.yields gs => gs.isEmpty

/-- A browsing-context lifecycle event inside one fetch attempt:
`acquire` is `newPage()` (which creates a fresh isolated context,
`browser.ts`), `release` is `page.context().close()`. -/
inductive CtxEvent where
  | acquire
  | release
deriving Repr, DecidableEq

/-- The observable shape of one fetch attempt in `fetchGamesByLetter` /
`fetchGamesByLetterPage` (`rotrends.ts`): either the render steps throw
(`renderError`), or a JSON payload with a games collection was observed and
mapped/filtered to `jsonMapped`, or the attempt falls through to the
DOM/static-markup extraction yielding `fallbackGames`. -/
structure AttemptInput where
  renderError : Option String
  jsonMapped : Option (List Game)
  fallbackGames : List Game
deriving Repr, DecidableEq

/-- How an attempt ends, as seen by the retry loop. -/
inductive AttemptExit where
  | returned : List Game → AttemptExit
  | retryEmpty : AttemptExit
  | retryError : String → AttemptExit
  | threw : String → AttemptExit
deriving Repr, DecidableEq

/-- The DOM/static-markup fall-through tail of an attempt (`rotrends.ts`,
after the JSON block): an empty extraction retries while attempts remain
(closing the context first), otherwise the games — possibly zero of them —
are returned after `page.context().close()`. -/
def domHtmlExit (inp : AttemptInput) (isLast : Bool) : AttemptExit × List CtxEvent :=
  if inp.fallbackGames.length = 0 ∧ isLast = false then
    (AttemptExit.retryEmpty, [CtxEvent.acquire, CtxEvent.release])
  else (AttemptExit.returned inp.fallbackGames, [CtxEvent.acquire, CtxEvent.release])

/-- One fetch attempt with its context-event trace, from `rotrends.ts`:
the attempt opens with `newPage()`; a thrown error is caught, the context
is closed, and the attempt retries or rethrows; if the JSON payload path
produces a non-empty mapped list, the attempt returns it immediately —
this `return mapped` (both the DOM-reconciled and the JSON-fallback
variant) performs no `page.context().close()`; otherwise control falls
through to the DOM/static-markup tail, whose exits all close the context. -/
def runAttempt (inp : AttemptInput) (isLast : Bool) : AttemptExit × List CtxEvent :=
  match inp.renderError with
  | some e =>
    if isLast then (AttemptExit.threw e, [CtxEvent.acquire, CtxEvent.release])
    else (AttemptExit.retryError e, [CtxEvent.acquire, CtxEvent.release])
  | none =>
    match inp.jsonMapped with
    | some mapped =>
      if mapped.length > 0 then (AttemptExit.returned mapped, [CtxEvent.acquire])
      else domHtmlExit inp isLast
    | none => domHtmlExit inp isLast

/-- The scheduler's process-wide run state (`continuous-search.ts`):
`running` is `isContinuousSearchRunning`, `starting` is `isStarting`,
`intervalTimer` is whether `continuousSearchInterval` holds a handle,
`nextCycleTimer` is whether `nextCycleTimeout` holds a pending timer.
`cyclesTriggered` is an instrumentation counter of how many times
`performContinuousSearchWithDelay` has been invoked (used to state the
single-active-cycle property; it is not program state). -/
structure SchedState where
  running : Bool
  starting : Bool
  intervalTimer : Bool
  nextCycleTimer : Bool
  cyclesTriggered : Nat
deriving Repr, DecidableEq

/-- The initial module state: all flags false, no timers, no cycles. -/
def initSchedState : SchedState := ⟨false, false, false, false, 0⟩

/-- `startContinuousSearch` (`continuous-search.ts` 46–61): if already
running or starting, warn and return unchanged; otherwise set
`isStarting = true` and `isContinuousSearchRunning = true`, invoke
`performContinuousSearchWithDelay()` (one cycle triggered), and set
`isStarting = false`.  The body is synchronous up to the cycle's first
`await`, so no other scheduler operation can observe the transient
`isStarting = true`; the function's net effect on the flags is modelled
atomically. -/
def startContinuousSearch (s : SchedState) : SchedState :=
  if s.running || s.starting then s
  else
    { s with
      running := true
      starting := false
      cyclesTriggered := s.cyclesTriggered + 1 }

/-- `stopContinuousSearch` (`continuous-search.ts` 63–83): if not running,
warn and return unchanged; otherwise set `isContinuousSearchRunning =
false` and clear both `continuousSearchInterval` and `nextCycleTimeout`.
Note the code never writes `isStarting` here. -/
def stopContinuousSearch (s : SchedState) : SchedState :=
  if !s.running then s
  else { s with running := false, intervalTimer := false, nextCycleTimer := false }

/-- The scheduler-visible events: the public `start()`/`stop()` calls, the
completion of a cycle (the tail of `performContinuousSearchWithDelay`,
which schedules the 5-minute `setTimeout` when still running), and that
timer firing (which triggers the next cycle only when still running). -/
inductive SchedOp where
  | start
  | stop
  | cycleComplete
  | timerFire
deriving Repr, DecidableEq

/-- One scheduler step (`continuous-search.ts`): `cycleComplete` models
lines 94–108 (re-arm `nextCycleTimeout` only if still running);
`timerFire` models the `setTimeout` callback (lines 102–108): the pending
timer is consumed, and a new cycle is triggered only if still running. -/
def schedStep (s : SchedState) : SchedOp → SchedState
  | SchedOp.start => startContinuousSearch s
  | SchedOp.stop => stopContinuousSearch s
  | SchedOp.cycleComplete =>
    if s.running then { s with nextCycleTimer := true } else s
  | SchedOp.timerFire =>
    if s.nextCycleTimer then
      if s.running then
        { s with nextCycleTimer := false, cyclesTriggered := s.cyclesTriggered + 1 }
      else { s with nextCycleTimer := false }
    else s

/-- The state after a sequence of scheduler events from module load. -/
def runSchedOps (ops : List SchedOp) : SchedState :=
  ops.foldl schedStep initSchedState

/-- The cycle-level counters of `performContinuousSearch`
(`continuous-search.ts`): `newGames`, `updatedGames`, `errors`. -/
structure CycleStats where
  newGames : Nat
  updatedGames : Nat
  errors : Nat
deriving Repr, DecidableEq

instance : Add CycleStats :=
  ⟨fun a b => ⟨a.newGames + b.newGames, a.updatedGames + b.updatedGames,
    a.errors + b.errors⟩⟩

/-- One entry's contribution to the counters (`continuous-search.ts`
190–218 and `populate.ts` 222–256): the upsert either reports `isNew`
(`Except.ok true` increments `newGames`, `Except.ok false` increments
`updatedGames`) or throws (`Except.error`, caught per entry, incrementing
`errors`). -/
def batchStep (acc : CycleStats) (o : Except String Bool) : CycleStats :=
  match o with
  | Except.ok true => { acc with newGames := acc.newGames + 1 }
  | Except.ok false => { acc with updatedGames := acc.updatedGames + 1 }
  | Except.error _ => { acc with errors := acc.errors + 1 }

/-- Per-entry processing of one page batch: every entry of the batch feeds
the fold; one entry's failure never removes its siblings from it. -/
def processBatch (outcomes : List (Except String Bool)) : CycleStats :=
  outcomes.foldl batchStep ⟨0, 0, 0⟩

/-- The result of fetching one page inside the cycle: either the fetch
threw (after its internal retries) or it produced a batch, each of whose
entries has an upsert outcome. -/
abbrev PageFetch := Except String (List (Except String Bool))

/-- The result of processing one letter: either the letter body threw
(caught by the per-letter `catch`) or it ran the pagination loop over its
page fetches. -/
abbrev LetterRun := Except String (List PageFetch)

/-- The `try`/`catch` around each page fetch in `performContinuousSearch`
(`continuous-search.ts` 156–164): a thrown fetch error is logged and
replaced by an empty batch (`pageGames = []`); no error counter is
touched. -/
def effectiveGames (p : PageFetch) : List (Except String Bool) :=
  match p with
  | Except.error _ => []
  | Except.ok gs => gs

/-- The per-letter pagination loop of `performContinuousSearch` with its
counters (`continuous-search.ts` 144–220): an empty (or failed) page
increments the empty streak, three consecutive empties end the letter;
a non-empty page resets the streak and processes its batch.  Returns the
letter's counter contribution and the number of pages fetched. -/
def letterWalkAux : List PageFetch → Nat → CycleStats × Nat
  | [], _ => (⟨0, 0, 0⟩, 0)
  | p :: rest, streak =>
    let gs := effectiveGames p
    if gs.length = 0 then
      if streak + 1 ≥ 3 then (⟨0, 0, 0⟩, 1)
      else
        let r := letterWalkAux rest (streak + 1)
        (r.1, r.2 + 1)
    else
      let r := letterWalkAux rest 0
      (processBatch gs + r.1, r.2 + 1)

/-- One letter's contribution to the cycle fold (`continuous-search.ts`
139–227): a letter-level throw is caught and counted as one error, the
cycle proceeding to the next letter; otherwise the letter's own counters
are added. -/
def letterStep (acc : CycleStats) (l : LetterRun) : CycleStats :=
  match l with
  | Except.error _ => { acc with errors := acc.errors + 1 }
  | Except.ok pages => acc + (letterWalkAux pages 0).1

/-- A whole crawl cycle: fold the letters in their fixed order. -/
def cycleRun (letters : List LetterRun) : CycleStats :=
  letters.foldl letterStep ⟨0, 0, 0⟩

example :
    upsertGameWithStatus 5 ⟨"B", "Foo", "http://x/1"⟩
      ⟨[⟨1, "A", "Foo", "http://x/1", 0, 0⟩], 2⟩ =
    Except.ok (⟨[⟨1, "B", "Foo", "http://x/1", 0, 5⟩], 2⟩, false) := by
  rfl

example :
    upsertGameWithStatus 5 ⟨"B", "Foo", "http://x/1"⟩
      ⟨[⟨1, "A", "Foo", "http://x/1", 0, 0⟩, ⟨2, "B", "Bar", "http://x/2", 0, 0⟩], 3⟩ =
    Except.error "UNIQUE constraint failed: games.source_id" := by
  rfl

/-- If `find?` fails, the predicate is false on every element. -/
theorem find?_none_pred {α : Type} (p : α → Bool) {l : List α}
    (h : l.find? p = none) : ∀ a ∈ l, p a = false := by
  intro a ha
  have := List.find?_eq_none.mp h a ha
  simpa using this

/-- In a list whose `f`-image is duplicate-free, the elements flanking a
distinguished occurrence differ from it under `f`. -/
theorem nodup_decomp_ne {α β : Type} (f : α → β) (l1 l2 : List α) (a : α)
    (h : ((l1 ++ a :: l2).map f).Nodup) :
    (∀ b ∈ l1, f b ≠ f a) ∧ ∀ b ∈ l2, f b ≠ f a := by
  rw [List.map_append, List.map_cons, List.nodup_append] at h
  obtain ⟨-, h2, hdisj⟩ := h
  constructor
  · intro b hb heq
    exact hdisj (List.mem_map_of_mem f hb) (by simp [heq])
  · intro b hb heq
    rw [List.nodup_cons] at h2
    exact h2.1 (heq ▸ List.mem_map_of_mem f hb)

/-- C1 (amended): the upsert applies its matching rules in strict order.
(1) If a record with exactly the entry's `(title, url)` pair exists, then —
provided no *different* record already holds the entry's identity — only
that record's `source_id` and `updated_at` change (its `title`, `url` and
`created_at` and every other record stay as they were, and no row is
inserted) and the result is `isNew = false`; if a different record does
hold the entry's identity, the operation fails with the `UNIQUE` constraint
error instead.  (2) Otherwise, if a record with the entry's identity
exists, that record's `title`, `url` and `updated_at` are rewritten and the
result is `isNew = false`.  (3) Otherwise a single new record is appended
and the result is `isNew = true`. -/
theorem upsertGameWithStatus_matching_rules (now : Nat) (g : Game) (t : GamesTable)
    (hid : (t.rows.map GameRow.id).Nodup)
    (hsid : (t.rows.map GameRow.source_id).Nodup) :
    (∀ dup, findTitleUrl t g.title g.url = some dup →
      (sourceIdConflict t dup.id g.source_id = true →
        upsertGameWithStatus now g t =
          Except.error "UNIQUE constraint failed: games.source_id") ∧
      (sourceIdConflict t dup.id g.source_id = false →
        ∃ l1 l2, t.rows = l1 ++ dup :: l2 ∧
          upsertGameWithStatus now g t =
            Except.ok
              (⟨l1 ++ { dup with source_id := g.source_id, updated_at := now } :: l2,
                t.nextId⟩, false))) ∧
    (findTitleUrl t g.title g.url = none →
      ∀ ex, findBySourceId t g.source_id = some ex →
        ∃ l1 l2, t.rows = l1 ++ ex :: l2 ∧
          upsertGameWithStatus now g t =
            Except.ok
              (⟨l1 ++ { ex with title := g.title, url := g.url, updated_at := now } :: l2,
                t.nextId⟩, false)) ∧
    (findTitleUrl t g.title g.url = none → findBySourceId t g.source_id = none →
      upsertGameWithStatus now g t =
        Except.ok
          (⟨t.rows ++ [⟨t.nextId, g.source_id, g.title, g.url, now, now⟩],
            t.nextId + 1⟩, true)) := by
  refine ⟨?_, ?_, ?_⟩
  · intro dup hfind
    constructor
    · intro hconf
      simp [upsertGameWithStatus, hfind, hconf]
    · intro hconf
      have hmem : dup ∈ t.rows := List.mem_of_find?_eq_some hfind
      obtain ⟨l1, l2, hdecomp⟩ := List.append_of_mem hmem
      refine ⟨l1, l2, hdecomp, ?_⟩
      have hne := nodup_decomp_ne GameRow.id l1 l2 dup (hdecomp ▸ hid)
      have hrows :
          (t.rows.map fun r => if r.id == dup.id then
            { r with source_id := g.source_id, updated_at := now } else r) =
          l1 ++ { dup with source_id := g.source_id, updated_at := now } :: l2 := by
        rw [hdecomp, List.map_append, List.map_cons]
        congr 1
        · calc l1.map (fun r => if r.id == dup.id then
                { r with source_id := g.source_id, updated_at := now } else r)
              = l1.map id := by
                apply List.map_congr_left
                intro b hb
                have hb' : (b.id == dup.id) = false :=
                  beq_eq_false_iff_ne.mpr (hne.1 b hb)
                simp [hb']
            _ = l1 := List.map_id l1
        · congr 1
          · simp
          · calc l2.map (fun r => if r.id == dup.id then
                  { r with source_id := g.source_id, updated_at := now } else r)
                = l2.map id := by
                  apply List.map_congr_left
                  intro b hb
                  have hb' : (b.id == dup.id) = false :=
                    beq_eq_false_iff_ne.mpr (hne.2 b hb)
                  simp [hb']
              _ = l2 := List.map_id l2
      simp only [upsertGameWithStatus, hfind, hconf, Bool.false_eq_true, if_false, hrows]
  · intro hfind ex hex
    have hmem : ex ∈ t.rows := List.mem_of_find?_eq_some hex
    obtain ⟨l1, l2, hdecomp⟩ := List.append_of_mem hmem
    refine ⟨l1, l2, hdecomp, ?_⟩
    have hexsid : ex.source_id = g.source_id := by
      have := List.find?_some hex
      simpa using this
    have hne := nodup_decomp_ne GameRow.source_id l1 l2 ex (hdecomp ▸ hsid)
    have hrows :
        (t.rows.map fun r => if r.source_id == g.source_id then
          { r with title := g.title, url := g.url, updated_at := now } else r) =
        l1 ++ { ex with title := g.title, url := g.url, updated_at := now } :: l2 := by
      rw [hdecomp, List.map_append, List.map_cons]
      congr 1
      · calc l1.map (fun r => if r.source_id == g.source_id then
              { r with title := g.title, url := g.url, updated_at := now } else r)
            = l1.map id := by
              apply List.map_congr_left
              intro b hb
              have hb' : (b.source_id == g.source_id) = false :=
                beq_eq_false_iff_ne.mpr (hexsid ▸ hne.1 b hb)
              simp [hb']
          _ = l1 := List.map_id l1
      · congr 1
        · simp [hexsid]
        · calc l2.map (fun r => if r.source_id == g.source_id then
                { r with title := g.title, url := g.url, updated_at := now } else r)
              = l2.map id := by
                apply List.map_congr_left
                intro b hb
                have hb' : (b.source_id == g.source_id) = false :=
                  beq_eq_false_iff_ne.mpr (hexsid ▸ hne.2 b hb)
                simp [hb']
            _ = l2 := List.map_id l2
    simp only [upsertGameWithStatus, hfind, hex, hrows]
  · intro hfind hnone
    simp [upsertGameWithStatus, hfind, hnone]

/-- C1 counterexample: upserting `{identity: "B", title: "Foo", url: "http://x/1"}`
over a store holding `{identity: "A", title: "Foo", url: "http://x/1"}` does
*not* always rewrite the matched record's identity and return `isNew = false`:
when a different record (here `{identity: "B", title: "Bar", url: "http://x/2"}`)
already holds identity `"B"`, the `UPDATE` fires the `UNIQUE(source_id)`
constraint and the operation rejects instead. -/
theorem upsertGameWithStatus_identity_conflict_cex :
    upsertGameWithStatus 1 ⟨"B", "Foo", "http://x/1"⟩
      ⟨[⟨1, "A", "Foo", "http://x/1", 0, 0⟩, ⟨2, "B", "Bar", "http://x/2", 0, 0⟩], 3⟩ =
    Except.error "UNIQUE constraint failed: games.source_id" := by
  rfl

/-- Witness for the amended C1 theorem: the identity-churn healing scenario.
Upserting `{identity: "B", title: "Foo", url: "http://x/1"}` over the single
stored record `{identity: "A", title: "Foo", url: "http://x/1"}` rewrites that
record's identity to `"B"` in place (no new row) and returns `isNew = false`. -/
theorem upsertGameWithStatus_matching_rules_witness :
    ∃ l1 l2, ([⟨1, "A", "Foo", "http://x/1", 0, 0⟩] : List GameRow) =
        l1 ++ (⟨1, "A", "Foo", "http://x/1", 0, 0⟩ : GameRow) :: l2 ∧
      upsertGameWithStatus 5 ⟨"B", "Foo", "http://x/1"⟩
          ⟨[⟨1, "A", "Foo", "http://x/1", 0, 0⟩], 2⟩ =
        Except.ok (⟨l1 ++ (⟨1, "B", "Foo", "http://x/1", 0, 5⟩ : GameRow) :: l2, 2⟩, false) := by
  exact ((upsertGameWithStatus_matching_rules 5 ⟨"B", "Foo", "http://x/1"⟩
      ⟨[⟨1, "A", "Foo", "http://x/1", 0, 0⟩], 2⟩ (by decide) (by decide)).1
      ⟨1, "A", "Foo", "http://x/1", 0, 0⟩ rfl).2 (by decide)

/-- C2: starting from a store in which no record matches the entry by
`(title, url)` or by identity (and whose AUTOINCREMENT cursor is fresh),
upserting the same entry twice returns `isNew = true` then `isNew = false`,
and exactly one persisted record matches the entry afterwards. -/
theorem upsertGameWithStatus_twice (now1 now2 : Nat) (g : Game) (t : GamesTable)
    (h1 : findTitleUrl t g.title g.url = none)
    (h2 : findBySourceId t g.source_id = none)
    (hfresh : ∀ r ∈ t.rows, r.id ≠ t.nextId) :
    ∃ t1 t2 : GamesTable,
      upsertGameWithStatus now1 g t = Except.ok (t1, true) ∧
      upsertGameWithStatus now2 g t1 = Except.ok (t2, false) ∧
      (t2.rows.filter (matchesGame g)).length = 1 := by
  have hpred1 : ∀ r ∈ t.rows, (r.title == g.title && r.url == g.url) = false :=
    find?_none_pred _ h1
  have hpred2 : ∀ r ∈ t.rows, (r.source_id == g.source_id) = false :=
    find?_none_pred _ h2
  refine ⟨⟨t.rows ++ [⟨t.nextId, g.source_id, g.title, g.url, now1, now1⟩], t.nextId + 1⟩,
    ⟨t.rows ++ [⟨t.nextId, g.source_id, g.title, g.url, now1, now2⟩], t.nextId + 1⟩,
    ?_, ?_, ?_⟩
  · simp [upsertGameWithStatus, h1, h2]
  · have hfind1 :
        findTitleUrl ⟨t.rows ++ [⟨t.nextId, g.source_id, g.title, g.url, now1, now1⟩],
          t.nextId + 1⟩ g.title g.url =
        some ⟨t.nextId, g.source_id, g.title, g.url, now1, now1⟩ := by
      simp only [findTitleUrl, List.find?_append]
      rw [show (t.rows.find? fun r => r.title == g.title && r.url == g.url) = none from h1]
      simp
    have hconf :
        sourceIdConflict ⟨t.rows ++ [⟨t.nextId, g.source_id, g.title, g.url, now1, now1⟩],
          t.nextId + 1⟩ t.nextId g.source_id = false := by
      simp only [sourceIdConflict, List.any_append, Bool.or_eq_false_iff]
      constructor
      · rw [List.any_eq_false]
        intro r hr
        simp [hpred2 r hr]
      · simp
    have hrows :
        ((t.rows ++ [(⟨t.nextId, g.source_id, g.title, g.url, now1, now1⟩ : GameRow)]).map
          fun r => if r.id == t.nextId then
            { r with source_id := g.source_id, updated_at := now2 } else r) =
        t.rows ++ [⟨t.nextId, g.source_id, g.title, g.url, now1, now2⟩] := by
      rw [List.map_append]
      congr 1
      · calc (t.rows.map fun r => if r.id == t.nextId then
              { r with source_id := g.source_id, updated_at := now2 } else r)
            = t.rows.map id := by
              apply List.map_congr_left
              intro b hb
              have hb' : (b.id == t.nextId) = false :=
                beq_eq_false_iff_ne.mpr (hfresh b hb)
              simp [hb']
          _ = t.rows := List.map_id _
      · simp
    simp only [upsertGameWithStatus, hfind1, hconf, Bool.false_eq_true, if_false, hrows]
  · rw [List.filter_append]
    have hnil : t.rows.filter (matchesGame g) = [] := by
      rw [List.filter_eq_nil_iff]
      intro r hr
      simp [matchesGame, hpred1 r hr, hpred2 r hr]
    rw [hnil]
    simp [matchesGame]

/-- Witness for C2: on an empty store, upserting a concrete entry twice
yields `isNew = true` then `isNew = false` with exactly one matching record. -/
theorem upsertGameWithStatus_twice_witness :
    ∃ t1 t2 : GamesTable,
      upsertGameWithStatus 3 ⟨"1", "Alpha", "u1"⟩ ⟨[], 0⟩ = Except.ok (t1, true) ∧
      upsertGameWithStatus 4 ⟨"1", "Alpha", "u1"⟩ t1 = Except.ok (t2, false) ∧
      (t2.rows.filter (matchesGame ⟨"1", "Alpha", "u1"⟩)).length = 1 :=
  upsertGameWithStatus_twice 3 4 ⟨"1", "Alpha", "u1"⟩ ⟨[], 0⟩ rfl rfl (by decide)

example : walk [5, 0, 0, 0, 5] = [1, 2, 3, 4] := by decide

example : walk [0, 0, 5, 0, 0, 0, 9] = [1, 2, 3, 4, 5, 6] := by decide

/-- The walk never fetches more pages than there are results. -/
theorem walkFrom_length_le (results : List Nat) (p s : Nat) :
    (walkFrom results p s).length ≤ results.length := by
  induction results generalizing p s with
  | nil => simp [walkFrom]
  | cons c rest ih =>
    by_cases hc : c = 0
    · by_cases hs : s + 1 ≥ 3
      · simp [walkFrom, hc, hs]
      · simp only [walkFrom, hc, if_true, hs, if_false, List.length_cons]
        exact Nat.succ_le_succ (ih _ _)
    · simp only [walkFrom, hc, if_false, List.length_cons]
      exact Nat.succ_le_succ (ih _ _)

/-- If the walk stops before exhausting its input, the fetched prefix ends
in three consecutive empty pages — or the whole fetched prefix is empty
pages completing a streak carried in from `s`. -/
theorem walkFrom_stop_triple (results : List Nat) (p s : Nat) (hs : s ≤ 2)
    (h : (walkFrom results p s).length < results.length) :
    (∃ t, results.take (walkFrom results p s).length = t ++ [0, 0, 0]) ∨
    ((walkFrom results p s).length + s = 3 ∧
      ∀ c ∈ results.take (walkFrom results p s).length, c = 0) := by
  induction results generalizing p s with
  | nil => simp [walkFrom] at h
  | cons c rest ih =>
    by_cases hc : c = 0
    · by_cases hstop : s + 1 ≥ 3
      · right
        subst hc
        simp only [walkFrom, if_true, hstop, if_pos] at h ⊢
        simp only [List.length_singleton]
        exact ⟨by omega, by simp⟩
      · have hs' : s + 1 ≤ 2 := by omega
        subst hc
        simp only [walkFrom, if_true, hstop, if_false, List.length_cons,
          Nat.add_lt_add_iff_right, List.take_succ_cons] at h ⊢
        rcases ih (p + 1) (s + 1) hs' h with h1 | h2
        · left
          obtain ⟨t, ht⟩ := h1
          exact ⟨0 :: t, by simp [ht]⟩
        · right
          refine ⟨by omega, ?_⟩
          intro x hx
          rcases List.mem_cons.mp hx with h | h
          · exact h
          · exact h2.2 x h
    · simp only [walkFrom, hc, if_false, List.length_cons,
        Nat.add_lt_add_iff_right, List.take_succ_cons] at h ⊢
      rcases ih (p + 1) 0 (by omega) h with h1 | h2
      · left
        obtain ⟨t, ht⟩ := h1
        exact ⟨c :: t, by simp [ht]⟩
      · left
        have hlen3 : (walkFrom rest (p + 1) 0).length = 3 := by omega
        have hle : (walkFrom rest (p + 1) 0).length ≤ rest.length :=
          walkFrom_length_le rest (p + 1) 0
        have hrep : rest.take (walkFrom rest (p + 1) 0).length = List.replicate 3 0 := by
          refine List.eq_replicate_iff.mpr ⟨?_, h2.2⟩
          rw [List.length_take]
          omega
        have : rest.take (walkFrom rest (p + 1) 0).length = [0, 0, 0] := hrep
        exact ⟨[c], by simp [this]⟩

/-- The walk never continues past a completed triple of empty pages: if the
first `k` results end in `[0, 0, 0]` (or are all empty and complete a
carried streak), at most `k` pages are fetched. -/
theorem walkFrom_min_stop (results : List Nat) (p s : Nat) (hs : s ≤ 2) (k : Nat)
    (h : (∃ t, results.take k = t ++ [0, 0, 0]) ∨
      ((∀ c ∈ results.take k, c = 0) ∧ 3 ≤ k + s)) :
    (walkFrom results p s).length ≤ k := by
  induction results generalizing p s k with
  | nil => simp [walkFrom]
  | cons c rest ih =>
    match k with
    | 0 =>
      rcases h with ⟨t, ht⟩ | ⟨-, h2⟩
      · simp at ht
      · omega
    | k + 1 =>
      rw [List.take_succ_cons] at h
      by_cases hc : c = 0
      · subst hc
        by_cases hstop : s + 1 ≥ 3
        · simp only [walkFrom, if_true, hstop, if_pos, List.length_singleton]
          omega
        · simp only [walkFrom, if_true, hstop, if_false, List.length_cons,
            Nat.add_le_add_iff_right]
          apply ih (p + 1) (s + 1) (by omega) k
          rcases h with ⟨t, ht⟩ | ⟨hz, h3⟩
          · match t with
            | [] =>
              right
              have htail : rest.take k = [0, 0] := by
                simpa using congrArg List.tail ht
              have hk : 2 ≤ k := by
                have := congrArg List.length htail
                simp [List.length_take] at this
                omega
              refine ⟨?_, by omega⟩
              intro x hx
              rw [htail] at hx
              simpa using hx
            | a :: t' =>
              left
              exact ⟨t', by simpa using congrArg List.tail ht⟩
          · right
            exact ⟨fun x hx => hz x (List.mem_cons_of_mem _ hx), by omega⟩
      · simp only [walkFrom, hc, if_false, List.length_cons, Nat.add_le_add_iff_right]
        apply ih (p + 1) 0 (by omega) k
        rcases h with ⟨t, ht⟩ | ⟨hz, -⟩
        · match t with
          | [] =>
            exfalso
            have : c = 0 := by simpa using congrArg (·.headI) ht
            exact hc this
          | a :: t' =>
            left
            exact ⟨t', by simpa using congrArg List.tail ht⟩
        · exact absurd (hz c (List.mem_cons_self c _)) hc

/-- C3: the pagination walk over one index key terminates exactly when
three consecutive pages yield zero entries: if it stops before exhausting
the fed page results, the last page it fetched was the third consecutive
empty one, and no earlier fetched page was; a non-empty page resets the
consecutive-empty streak to zero.  Concretely, fed
`[5 entries, 0, 0, 0, 5 entries]` the walk fetches exactly pages 1–4 and
never fetches page 5. -/
theorem walker_three_empty_termination (results : List Nat) :
    ((walk results).length < results.length →
      endsInTripleEmpty results (walk results).length) ∧
    (∀ k, k < (walk results).length → ¬ endsInTripleEmpty results k) ∧
    (∀ c rest p s, c ≠ 0 → walkFrom (c :: rest) p s = p :: walkFrom rest (p + 1) 0) ∧
    walk [5, 0, 0, 0, 5] = [1, 2, 3, 4] ∧ 5 ∉ walk [5, 0, 0, 0, 5] := by
  refine ⟨?_, ?_, ?_, by decide, by decide⟩
  · intro h
    rcases walkFrom_stop_triple results 1 0 (by omega) h with h1 | h2
    · exact h1
    · have hlen3 : (walk results).length = 3 := by
        have := h2.1
        simpa [walk] using this
      have hrep : results.take (walk results).length = List.replicate 3 0 := by
        refine List.eq_replicate_iff.mpr ⟨?_, h2.2⟩
        rw [List.length_take]
        omega
      exact ⟨[], by simpa using hrep⟩
  · rintro k hk ⟨t, ht⟩
    have := walkFrom_min_stop results 1 0 (by omega) k (Or.inl ⟨t, ht⟩)
    simp only [walk] at hk
    omega
  · intro c rest p s hc
    simp [walkFrom, hc]

/-- Every page number the walk fetches is at least the starting page. -/
theorem walkFrom_mem_ge (results : List Nat) (p s : Nat) :
    ∀ q ∈ walkFrom results p s, p ≤ q := by
  induction results generalizing p s with
  | nil => simp [walkFrom]
  | cons c rest ih =>
    intro q hq
    by_cases hc : c = 0
    · by_cases hstop : s + 1 ≥ 3
      · simp only [walkFrom, hc, if_true, hstop, if_pos, List.mem_singleton] at hq
        omega
      · simp only [walkFrom, hc, if_true, hstop, if_false, List.mem_cons] at hq
        rcases hq with rfl | hq
        · exact Nat.le_refl q
        · have := ih (p + 1) (s + 1) q hq
          omega
    · simp only [walkFrom, hc, if_false, List.mem_cons] at hq
      rcases hq with rfl | hq
      · exact Nat.le_refl q
      · have := ih (p + 1) 0 q hq
        omega

/-- The plain walk (no processed-page set, `performContinuousSearch`)
fetches strictly increasing page numbers, hence no duplicates. -/
theorem walkFrom_nodup (results : List Nat) (p s : Nat) :
    (walkFrom results p s).Nodup := by
  induction results generalizing p s with
  | nil => simp [walkFrom]
  | cons c rest ih =>
    by_cases hc : c = 0
    · by_cases hstop : s + 1 ≥ 3
      · simp [walkFrom, hc, hstop]
      · simp only [walkFrom, hc, if_true, hstop, if_false, List.nodup_cons]
        refine ⟨fun hmem => ?_, ih _ _⟩
        have := walkFrom_mem_ge rest (p + 1) (s + 1) p hmem
        omega
    · simp only [walkFrom, hc, if_false, List.nodup_cons]
      refine ⟨fun hmem => ?_, ih _ _⟩
      have := walkFrom_mem_ge rest (p + 1) 0 p hmem
      omega

/-- C4: within a single walk of one index key, the sequence of page numbers
actually processed contains no duplicates — both for the plain
`performContinuousSearch` walker (pages increase strictly) and for the
`parseNewGames` walker with its `processedPages` set, which moreover never
processes a page already recorded in the set it started from. -/
theorem pages_never_reprocessed (results : List Nat) (f : Nat → Nat)
    (fuel page streak : Nat) (processed : List Nat) :
    (walk results).Nodup ∧
    (parsePagesLoop f fuel page streak processed).Nodup ∧
    ∀ q ∈ parsePagesLoop f fuel page streak processed, processed.contains q = false := by
  refine ⟨walkFrom_nodup results 1 0, ?_⟩
  induction fuel generalizing page streak processed with
  | zero => simp [parsePagesLoop]
  | succ fuel ih =>
    by_cases hmem : processed.contains page
    · simp only [parsePagesLoop, hmem, if_pos]
      exact ih (page + 1) streak processed
    · by_cases hz : f page = 0
      · by_cases hstop : streak + 1 ≥ 3
        · simp only [parsePagesLoop, hmem, Bool.false_eq_true, if_false, hz, if_true,
            hstop, if_pos]
          refine ⟨List.nodup_singleton page, ?_⟩
          intro q hq
          rw [List.mem_singleton] at hq
          subst hq
          simpa using hmem
        · simp only [parsePagesLoop, hmem, Bool.false_eq_true, if_false, hz, if_true,
            hstop, List.nodup_cons]
          obtain ⟨hnd, hcont⟩ := ih (page + 1) (streak + 1) (page :: processed)
          refine ⟨⟨fun hin => ?_, hnd⟩, ?_⟩
          · have := hcont page hin
            simp at this
          · intro q hq
            rcases List.mem_cons.mp hq with rfl | hq
            · simpa using hmem
            · have := hcont q hq
              simp at this
              exact by simpa using this.2
      · simp only [parsePagesLoop, hmem, Bool.false_eq_true, if_false, hz, List.nodup_cons]
        obtain ⟨hnd, hcont⟩ := ih (page + 1) 0 (page :: processed)
        refine ⟨⟨fun hin => ?_, hnd⟩, ?_⟩
        · have := hcont page hin
          simp at this
        · intro q hq
          rcases List.mem_cons.mp hq with rfl | hq
          · simpa using hmem
          · have := hcont q hq
            simp at this
            exact by simpa using this.2

/-- Witness for C4: the [5,0,0,0,5] walk has no duplicate pages, and a loop
started with page 7 already marked processed never reprocesses it. -/
theorem pages_never_reprocessed_witness :
    (walk [5, 0, 0, 0, 5]).Nodup ∧ ([7] : List Nat).contains 8 = false := by
  have h := pages_never_reprocessed [5, 0, 0, 0, 5] (fun _ => 1) 2 7 0 [7]
  exact ⟨h.1, h.2.2 8 (by decide)⟩

/-- Witness for C3: fed `[1, 0, 0, 0, 7]`, the walk stops early and its
stopping point ends in three consecutive empty pages; fed the claim's
`[5, 0, 0, 0, 5]` it fetches exactly pages 1–4. -/
theorem walker_three_empty_termination_witness :
    endsInTripleEmpty [1, 0, 0, 0, 7] 4 ∧ walk [5, 0, 0, 0, 5] = [1, 2, 3, 4] := by
  refine ⟨(walker_three_empty_termination [1, 0, 0, 0, 7]).1 (by decide),
    (walker_three_empty_termination [5, 0, 0, 0, 5]).2.2.2.1⟩

/-- The loop never makes more attempts than it has fuel. -/
theorem fetchLoop_count_le (att : Nat → AttemptOutcome) (fuel rc : Nat) :
    (fetchLoop att fuel rc).2 ≤ fuel := by
  induction fuel generalizing rc with
  | zero => simp [fetchLoop]
  | succ fuel ih =>
    simp only [fetchLoop]
    by_cases h3 : rc < 3
    · simp only [if_pos h3]
      cases att rc with
      | throws e =>
        by_cases h2 : rc < 2
        · simp only [if_pos h2]
          exact Nat.succ_le_succ (ih _)
        · simp only [if_neg h2]
          omega
      | yields gs =>
        by_cases hretry : gs.length = 0 ∧ rc < 2
        · simp only [if_pos hretry]
          exact Nat.succ_le_succ (ih _)
        · simp only [if_neg hretry]
          omega
    · simp only [if_neg h3]
      omega

/-- C5: a fetch makes at most 3 attempts; when every attempt yields an
empty extraction the final empty result is returned as zero entries (not an
error); when the first two attempts would retry and the final attempt
throws from the render step, that error propagates to the caller. -/
theorem fetch_retry_policy (att : Nat → AttemptOutcome) :
    (fetchGamesByLetterM att).2 ≤ 3 ∧
    (att 0 = AttemptOutcome.yields [] → att 1 = AttemptOutcome.yields [] →
      att 2 = AttemptOutcome.yields [] →
      fetchGamesByLetterM att = (Except.ok [], 3)) ∧
    (∀ e, triggersRetry (att 0) = true → triggersRetry (att 1) = true →
      att 2 = AttemptOutcome.throws e →
      fetchGamesByLetterM att = (Except.error e, 3)) := by
  refine ⟨fetchLoop_count_le att 3 0, ?_, ?_⟩
  · intro h0 h1 h2
    simp [fetchGamesByLetterM, fetchLoop, h0, h1, h2]
  · intro e h0 h1 h2
    cases hatt0 : att 0 with
    | throws e0 =>
      cases hatt1 : att 1 with
      | throws e1 =>
        simp [fetchGamesByLetterM, fetchLoop, hatt0, hatt1, h2]
      | yields gs =>
        rw [hatt1] at h1
        have hgs : gs = [] := by simpa [triggersRetry] using h1
        subst hgs
        simp [fetchGamesByLetterM, fetchLoop, hatt0, hatt1, h2]
    | yields gs =>
      rw [hatt0] at h0
      have hgs : gs = [] := by simpa [triggersRetry] using h0
      subst hgs
      cases hatt1 : att 1 with
      | throws e1 =>
        simp [fetchGamesByLetterM, fetchLoop, hatt0, hatt1, h2]
      | yields gs1 =>
        rw [hatt1] at h1
        have hgs1 : gs1 = [] := by simpa [triggersRetry] using h1
        subst hgs1
        simp [fetchGamesByLetterM, fetchLoop, hatt0, hatt1, h2]

/-- Witness for C5: with every attempt yielding an empty extraction, the
fetch makes exactly 3 attempts and returns zero entries. -/
theorem fetch_retry_policy_witness :
    fetchGamesByLetterM (fun _ => AttemptOutcome.yields []) = (Except.ok [], 3) :=
  (fetch_retry_policy (fun _ => AttemptOutcome.yields [])).2.1 rfl rfl rfl

/-- C6 is violated by the code: on the JSON return path (a non-empty mapped
list), the attempt returns with its acquired context never released —
its trace is a bare `acquire`, with strictly fewer releases than acquires —
while the exception path and the DOM/static-markup path do release the
context before exiting. -/
theorem json_return_path_leaks_context :
    (runAttempt ⟨none, some [⟨"1", "Foo", "https://rotrends.com/games/1"⟩], []⟩ false).2 =
      [CtxEvent.acquire] ∧
    (runAttempt ⟨none, some [⟨"1", "Foo", "https://rotrends.com/games/1"⟩], []⟩ false).2.count
        CtxEvent.release <
      (runAttempt ⟨none, some [⟨"1", "Foo", "https://rotrends.com/games/1"⟩], []⟩ false).2.count
        CtxEvent.acquire ∧
    (runAttempt ⟨some "net::ERR_TIMED_OUT", none, []⟩ true).2 =
      [CtxEvent.acquire, CtxEvent.release] ∧
    (runAttempt ⟨none, none, []⟩ true).2 = [CtxEvent.acquire, CtxEvent.release] := by
  refine ⟨rfl, by decide, rfl, rfl⟩

/-- At every operation boundary the `isStarting` flag is false: it is only
ever true inside the synchronous body of `startContinuousSearch`. -/
theorem runSchedOps_starting_false (ops : List SchedOp) :
    (runSchedOps ops).starting = false := by
  suffices h : ∀ s : SchedState, s.starting = false →
      ∀ ops : List SchedOp, (ops.foldl schedStep s).starting = false by
    exact h initSchedState rfl ops
  intro s hs ops
  induction ops generalizing s with
  | nil => simpa using hs
  | cons op rest ih =>
    rw [List.foldl_cons]
    apply ih
    cases op with
    | start =>
      simp only [schedStep, startContinuousSearch]
      split <;> simp [hs]
    | stop =>
      simp only [schedStep, stopContinuousSearch]
      split <;> simp [hs]
    | cycleComplete =>
      simp only [schedStep]
      split <;> simp [hs]
    | timerFire =>
      simp only [schedStep]
      split
      · split <;> simp [hs]
      · exact hs

/-- C7: `start()` is a no-op (state unchanged, no cycle triggered) when the
scheduler is already Running or Starting; from the Stopped state it
transitions to Running and triggers exactly one cycle, and an immediately
following second `start()` changes nothing — so two calls in rapid
succession from Stopped yield exactly one active cycle. -/
theorem start_single_cycle (s : SchedState) :
    (s.running = true ∨ s.starting = true → startContinuousSearch s = s) ∧
    (s.running = false → s.starting = false →
      (startContinuousSearch s).running = true ∧
      (startContinuousSearch s).cyclesTriggered = s.cyclesTriggered + 1 ∧
      startContinuousSearch (startContinuousSearch s) = startContinuousSearch s ∧
      (startContinuousSearch (startContinuousSearch s)).cyclesTriggered =
        s.cyclesTriggered + 1) := by
  constructor
  · intro h
    have hcond : (s.running || s.starting) = true := by
      rcases h with h | h <;> simp [h]
    simp [startContinuousSearch, hcond]
  · intro hr hst
    have hcond : (s.running || s.starting) = false := by simp [hr, hst]
    have hs' : startContinuousSearch s =
        { s with
          running := true
          starting := false
          cyclesTriggered := s.cyclesTriggered + 1 } := by
      simp [startContinuousSearch, hcond]
    have hfix : startContinuousSearch (startContinuousSearch s) = startContinuousSearch s := by
      rw [hs']
      simp [startContinuousSearch]
    refine ⟨by rw [hs'], by rw [hs'], hfix, by rw [hfix, hs']⟩

/-- Witness for C7: two `start()` calls from the initial Stopped state
leave the scheduler running with exactly one cycle triggered. -/
theorem start_single_cycle_witness :
    (startContinuousSearch initSchedState).running = true ∧
    (startContinuousSearch (startContinuousSearch initSchedState)).cyclesTriggered = 1 := by
  have h := (start_single_cycle initSchedState).2 rfl rfl
  exact ⟨h.1, h.2.2.2⟩

/-- C8: in any reachable scheduler state, `stop()` while not Stopped resets
the whole run state together — the running flag becomes false, the starting
flag is false afterwards (it is false at every point `stop()` can run, and
`stop()` leaves it so), and both timer handles are cleared — after which
neither a cycle completion nor a timer firing schedules or triggers
anything; `stop()` while already Stopped changes no state. -/
theorem stop_resets_run_state (ops : List SchedOp) :
    (runSchedOps ops).starting = false ∧
    ((runSchedOps ops).running = true →
      (stopContinuousSearch (runSchedOps ops)).running = false ∧
      (stopContinuousSearch (runSchedOps ops)).starting = false ∧
      (stopContinuousSearch (runSchedOps ops)).intervalTimer = false ∧
      (stopContinuousSearch (runSchedOps ops)).nextCycleTimer = false ∧
      schedStep (stopContinuousSearch (runSchedOps ops)) SchedOp.cycleComplete =
        stopContinuousSearch (runSchedOps ops) ∧
      (schedStep (stopContinuousSearch (runSchedOps ops)) SchedOp.timerFire).cyclesTriggered =
        (stopContinuousSearch (runSchedOps ops)).cyclesTriggered) ∧
    ((runSchedOps ops).running = false →
      stopContinuousSearch (runSchedOps ops) = runSchedOps ops) := by
  have hstart := runSchedOps_starting_false ops
  refine ⟨hstart, ?_, ?_⟩
  · intro hr
    have hstop : stopContinuousSearch (runSchedOps ops) =
        { runSchedOps ops with
          running := false
          intervalTimer := false
          nextCycleTimer := false } := by
      simp [stopContinuousSearch, hr]
    rw [hstop]
    refine ⟨rfl, hstart, rfl, rfl, ?_, ?_⟩ <;> simp [schedStep]
  · intro hr
    simp [stopContinuousSearch, hr]

/-- Witness for C8: after `start()` and a completed cycle (pending 5-minute
timer armed), a single `stop()` clears the running flag and the pending
next-cycle timer. -/
theorem stop_resets_run_state_witness :
    (stopContinuousSearch (runSchedOps [SchedOp.start, SchedOp.cycleComplete])).running
      = false ∧
    (stopContinuousSearch (runSchedOps [SchedOp.start, SchedOp.cycleComplete])).nextCycleTimer
      = false := by
  have h := (stop_resets_run_state [SchedOp.start, SchedOp.cycleComplete]).2.1 (by decide)
  exact ⟨h.1, h.2.2.2.1⟩

theorem CycleStats.add_def (a b : CycleStats) :
    a + b = ⟨a.newGames + b.newGames, a.updatedGames + b.updatedGames,
      a.errors + b.errors⟩ := rfl

theorem CycleStats.add_assoc (a b c : CycleStats) : a + b + c = a + (b + c) := by
  simp [CycleStats.add_def, Nat.add_assoc]

theorem batchStep_shift (acc : CycleStats) (o : Except String Bool) :
    batchStep acc o = acc + batchStep ⟨0, 0, 0⟩ o := by
  cases o with
  | ok b => cases b <;> simp [batchStep, CycleStats.add_def]
  | error e => simp [batchStep, CycleStats.add_def]

/-- The counter fold adds to its accumulator on the left. -/
theorem processBatch_foldl_shift (outcomes : List (Except String Bool))
    (acc : CycleStats) :
    outcomes.foldl batchStep acc = acc + processBatch outcomes := by
  induction outcomes generalizing acc with
  | nil => simp [processBatch, CycleStats.add_def]
  | cons o rest ih =>
    rw [List.foldl_cons, ih, show processBatch (o :: rest) =
      batchStep ⟨0, 0, 0⟩ o + processBatch rest from by
        rw [processBatch, List.foldl_cons, ih], batchStep_shift acc o,
      CycleStats.add_assoc]

/-- `processBatch` is additive over concatenation of batches. -/
theorem processBatch_append (xs ys : List (Except String Bool)) :
    processBatch (xs ++ ys) = processBatch xs + processBatch ys := by
  rw [processBatch, List.foldl_append, processBatch_foldl_shift]
  rfl

theorem letterStep_shift (acc : CycleStats) (l : LetterRun) :
    letterStep acc l = acc + letterStep ⟨0, 0, 0⟩ l := by
  cases l with
  | error e => simp [letterStep, CycleStats.add_def]
  | ok pages => simp [letterStep, CycleStats.add_def]

/-- The cycle fold adds to its accumulator on the left. -/
theorem cycleRun_foldl_shift (letters : List LetterRun) (acc : CycleStats) :
    letters.foldl letterStep acc = acc + cycleRun letters := by
  induction letters generalizing acc with
  | nil => simp [cycleRun, CycleStats.add_def]
  | cons l rest ih =>
    rw [List.foldl_cons, ih, show cycleRun (l :: rest) =
      letterStep ⟨0, 0, 0⟩ l + cycleRun rest from by
        rw [cycleRun, List.foldl_cons, ih], letterStep_shift acc l,
      CycleStats.add_assoc]

/-- C9: errors are contained at their own granularity.  A letter whose
processing throws contributes exactly one to the cycle's error counter,
with every letter before and after it still contributing in full; and
within one page batch, a failing entry contributes exactly one error while
every sibling entry before and after it is still processed and counted. -/
theorem single_failure_never_aborts (xs ys : List LetterRun) (e e' : String)
    (bs cs : List (Except String Bool)) :
    cycleRun (xs ++ Except.error e :: ys) =
      cycleRun xs + (⟨0, 0, 1⟩ : CycleStats) + cycleRun ys ∧
    processBatch (bs ++ Except.error e' :: cs) =
      processBatch bs + (⟨0, 0, 1⟩ : CycleStats) + processBatch cs := by
  constructor
  · rw [cycleRun, List.foldl_append, List.foldl_cons, cycleRun_foldl_shift,
      letterStep_shift]
    simp only [cycleRun]
    rfl
  · rw [processBatch, List.foldl_append, List.foldl_cons, processBatch_foldl_shift,
      batchStep_shift]
    simp only [processBatch]
    rfl

/-- C10: in the continuous crawl cycle, a page whose fetch throws is
handled identically to a genuinely empty page — the error is swallowed and
the page behaves as an empty batch feeding the per-letter empty-page
streak, with the cycle's error counter untouched; in particular three
consecutive failing pages terminate the letter's walk after exactly those
three pages with all counters (including errors) at zero. -/
theorem fetch_throw_equals_empty_page (pre post : List PageFetch) (e : String) :
    (∀ s, letterWalkAux (pre ++ Except.error e :: post) s =
      letterWalkAux (pre ++ Except.ok [] :: post) s) ∧
    (∀ e1 e2 e3 : String, ∀ rest : List PageFetch,
      letterWalkAux (Except.error e1 :: Except.error e2 :: Except.error e3 :: rest) 0 =
        (⟨0, 0, 0⟩, 3)) := by
  constructor
  · induction pre with
    | nil =>
      intro s
      rfl
    | cons q pre ih =>
      intro s
      simp only [List.cons_append, letterWalkAux, List.append_eq]
      rw [ih, ih]
  · intro e1 e2 e3 rest
    rfl
